import Mathlib

/-!
Verification development for the dependency-resolution core of the
getter package (files get_get.go and the Getter/Get declaration file).

The Go code is shallowly embedded as pure Lean functions:

- external collaborators (the package loader LoadImport, the repository
  backend vcsFromDir / repoRootForImportPath / create, the filesystem
  Stat / MkdirAll, the path library, the vendoring helpers FindVendor /
  VendoredImportPath) appear as fields of an environment record Env;
- the Getter mutable caches (downloadCache, downloadRootCache,
  repoPackages) are threaded through a state record St, together with
  instrumentation logs recording each invocation of an effectful
  collaborator (createCalls, updateCalls, mkdirCalls, sendCalls) and of
  the recursive walker (downloadCalls, vendorRewrites);
- the recursive walker download is given a fuel parameter; running out
  of fuel is a distinguished outcome, as is a Go panic;
- the hint pass of Get (the local function processPath) is embedded
  separately over the package cache available when the pass runs.
-/

/-- Mirrors the PackageError value used for Package.Error and for the
structured errors built inside download: an import-stack snapshot, a
message, and the Hard severity flag (false when the literal in the Go
code does not set it). -/
structure PackageError where
  importStack : List String
  err : String
  hard : Bool
deriving DecidableEq, Repr

/-- Mirrors the Package fields read by get_get.go: ImportPath, Dir,
Standard, Imports, Error, Internal.Build.Imports (buildImports) and
Internal.Build.SrcRoot (srcRoot). -/
structure Package where
  importPath : String
  dir : String
  standard : Bool
  imports : List String
  error : Option PackageError
  buildImports : List String
  srcRoot : String
deriving DecidableEq, Repr

/-- Mirrors repoRoot: root import-path prefix, remote repo location,
resolved local dir, and whether a local checkout exists. -/
structure RepoRoot where
  root : String
  repo : String
  dir : String
  exists_ : Bool
deriving DecidableEq, Repr

/-- The errors downloadPackage can return, one constructor per
fmt.Errorf site or propagated collaborator error. -/
inductive DownloadErr where
  | vcsErr (e : String)
  | repoRootErr (e : String)
  | insecure (repo : String)
  | noGopath
  | gopathIsGoroot
  | gorootTree (dir : String)
  | pathDisagreement (calculated expected : String)
  | dirExists (dir : String)
  | mkdirErr (e : String)
  | createErr (e : String)
deriving DecidableEq, Repr

/-- The message carried by each downloadPackage error, mirroring the
fmt.Errorf format strings. -/
def DownloadErr.msg : DownloadErr → String
  | .vcsErr e => e
  | .repoRootErr e => e
  | .insecure repo => "cannot download, " ++ repo ++ " uses insecure protocol"
  | .noGopath => "cannot download, $GOPATH not set. For more details see: 'go help gopath'"
  | .gopathIsGoroot => "cannot download, $GOPATH must not be set to $GOROOT. For more details see: 'go help gopath'"
  | .gorootTree d => "cannot download, " ++ d ++ " is a GOROOT, not a GOPATH. For more details see: 'go help gopath'"
  | .pathDisagreement c e => "path disagreement, calculated " ++ c ++ ", expected " ++ e
  | .dirExists d => d ++ " exists but repo does not"
  | .mkdirErr e => e
  | .createErr e => e

/-- Outcome of downloadPackage: normal return nil, an error return, or
a Go panic (the root-exists branch). -/
inductive DPOutcome where
  | ok
  | err (e : DownloadErr)
  | panicked (msg : String)
deriving DecidableEq, Repr

/-- Outcome of the recursive walker download: nil, a PackageError, a
propagating Go panic, or exhaustion of the artificial fuel budget. -/
inductive DLOutcome where
  | ok
  | err (e : PackageError)
  | panicked (msg : String)
  | fuelOut
deriving DecidableEq, Repr

/-- True exactly on the panic outcome. -/
def DLOutcome.isPanic : DLOutcome → Bool
  | .panicked _ => true
  | _ => false

/-- The mutable Getter state threaded through the walker, plus
instrumentation logs. The three cache fields mirror the Getter struct;
the log fields record each invocation of an effectful operation:
createCalls the dirs passed to the backend checkout root.create,
updateCalls the dirs passed to the backend update root.download,
mkdirCalls the dirs passed to MkdirAll, sendCalls the progress
notifications, downloadCalls the paths passed to recursive download
invocations from the import loop, vendorRewrites the paths rewritten
through VendoredImportPath. -/
structure St where
  downloadCache : List String
  downloadRootCache : List (String × RepoRoot)
  repoPackages : List (String × RepoRoot)
  createCalls : List String
  updateCalls : List String
  mkdirCalls : List String
  sendCalls : List String
  downloadCalls : List String
  vendorRewrites : List String
deriving DecidableEq, Repr

/-- The caches of a fresh Getter as set up by New: all empty. -/
def St.start : St := ⟨[], [], [], [], [], [], [], [], []⟩

/-- The external collaborators consumed by get_get.go, as oracle
functions. loadImport additionally receives the list of directories
checked out so far, standing for the filesystem state the loader reads
(so that reloading after a fetch can observe the new checkout). -/
structure Env where
  loadImport : List String → String → String → Option Package → Bool → Package
  vcsFromDir : String → String → Except String RepoRoot
  repoRootForImportPath : String → Bool → Except String RepoRoot
  isSecure : String → Bool
  gopathList : List String
  goroot : String
  clean : String → String
  join : String → String → String
  fromSlash : String → String
  splitDir : String → String
  statAlldocs : String → Bool
  stat : String → Bool
  mkdirAll : String → Option String
  createResult : String → Option String
  findVendor : String → Option Nat
  vendoredImportPath : Package → String → String
  sendPresent : Bool

/-- The load1 closure at the top of download: load relative to the
parent directory when a parent exists, else from the synthetic root
directory, never with vendor expansion for the root. -/
def load1 (env : Env) (st : St) (parent : Option Package) (path : String)
    (useVendor : Bool) : Package :=
  match parent with
  | none => env.loadImport st.createCalls path "/" none false
  | some par => env.loadImport st.createCalls path par.dir (some par) useVendor

/-- Lines 143 to 156 of get_get.go: derive the repoRoot either from the
existing on-disk checkout (vcsFromDir) when the package has a known
source root, or from the import path (repoRootForImportPath). -/
def resolveRepo (env : Env) (p : Package) (insecure : Bool) :
    Except DownloadErr RepoRoot :=
  if p.srcRoot ≠ "" then
    match env.vcsFromDir p.dir p.srcRoot with
    | .ok r => .ok r
    | .error e => .error (.vcsErr e)
  else
    match env.repoRootForImportPath p.importPath insecure with
    | .ok r => .ok r
    | .error e => .error (.repoRootErr e)

/-- Lines 161 to 177 of get_get.go: the effective source root. When the
package already has one, keep it; otherwise take the first GOPATH
entry, rejecting an empty GOPATH, a GOPATH equal to GOROOT, and a
GOPATH that is actually a GOROOT tree. -/
def gopathSrcRoot (env : Env) (p : Package) : Except DownloadErr String :=
  if p.srcRoot = "" then
    match env.gopathList with
    | [] => .error .noGopath
    | g0 :: _ =>
      if env.clean g0 = env.clean env.goroot then .error .gopathIsGoroot
      else if env.statAlldocs g0 then .error (.gorootTree g0)
      else .ok (env.join g0 "src")
  else .ok p.srcRoot

/-- Lines 187 to 226 of get_get.go, after the repoRoot has its dir
fixed: the downloadRootCache idempotence guard, then either the fresh
checkout sequence (occupancy check, MkdirAll, progress notification,
backend create) or, when a checkout already exists, the unconditional
panic that guards the unimplemented update path (the root.download call
after the panic is unreachable and therefore absent here). -/
def downloadRootPhase (env : Env) (st : St) (root : RepoRoot) : DPOutcome × St :=
  match st.downloadRootCache.lookup root.dir with
  | some _ => (.ok, st)
  | none =>
    let st := { st with downloadRootCache := (root.dir, root) :: st.downloadRootCache }
    if !root.exists_ then
      if env.stat root.dir then (.err (.dirExists root.dir), st)
      else
        let parentDir := env.splitDir root.dir
        let st := { st with mkdirCalls := st.mkdirCalls ++ [parentDir] }
        match env.mkdirAll parentDir with
        | some e => (.err (.mkdirErr e), st)
        | none =>
          let st := if env.sendPresent
            then { st with sendCalls := st.sendCalls ++ [root.root] } else st
          let st := { st with createCalls := st.createCalls ++ [root.dir] }
          match env.createResult root.dir with
          | some e => (.err (.createErr e), st)
          | none => (.ok, st)
    else
      (.panicked "root exists", st)

/-- Lines 136 to 252 of get_get.go: resolve the repoRoot, apply the
security gate, derive the source root from GOPATH when missing, compute
the expected checkout dir and reject a disagreement, record the root in
repoPackages, then run the guarded checkout phase. -/
def downloadPackage (env : Env) (st : St) (p : Package)
    (update insecure : Bool) : DPOutcome × St :=
  match resolveRepo env p insecure with
  | .error e => (.err e, st)
  | .ok root =>
    if !env.isSecure root.repo && !insecure then (.err (.insecure root.repo), st)
    else
      match gopathSrcRoot env p with
      | .error e => (.err e, st)
      | .ok srcRoot =>
        let dir := env.join srcRoot (env.fromSlash root.root)
        match (if root.dir = "" then .ok { root with dir := dir }
               else if root.dir ≠ dir then .error (.pathDisagreement dir root.dir)
               else .ok root : Except DownloadErr RepoRoot) with
        | .error e => (.err e, st)
        | .ok root =>
          let st := { st with repoPackages := (p.importPath, root) :: st.repoPackages }
          downloadRootPhase env st root

/-- The result triple of the walker: outcome, import stack, state. -/
abbrev DLRes := DLOutcome × List String × St

/-- Lines 95 to 128 inner loop body of get_get.go, iterating the
extended import list of one resolved package with its index. The
pseudo-import C is skipped; an import whose raw build-declared original
names a vendor path is a hard stop with stack context; the test-import
vendor rewrite guard compares the index against the length of the very
list being iterated (as the source does); each surviving path is
recursed into through dl with the current package as parent and
single false. -/
def downloadImports (env : Env)
    (dl : String → Option Package → List String → Bool → Bool → Bool → St → DLRes)
    (p : Package) (update insecure : Bool) :
    Nat → List String → List String → St → DLRes
  | _, [], stk, st => (.ok, stk, st)
  | i, path :: rest, stk, st =>
    if path = "C" then downloadImports env dl p update insecure (i + 1) rest stk st
    else
      let orig := match p.buildImports[i]? with
        | some o => o
        | none => path
      match env.findVendor orig with
      | some j =>
        let stk1 := stk ++ [path]
        (.err ⟨stk1, "must be imported as " ++ path.drop (j + 7), false⟩,
          stk1.dropLast, st)
      | none =>
        let path1 := if i ≥ p.imports.length then env.vendoredImportPath p path else path
        let st := if i ≥ p.imports.length
          then { st with vendorRewrites := st.vendorRewrites ++ [path] } else st
        let st := { st with downloadCalls := st.downloadCalls ++ [path1] }
        match dl path1 (some p) stk update insecure false st with
        | (.ok, stk1, st1) => downloadImports env dl p update insecure (i + 1) rest stk1 st1
        | r => r

/-- Lines 95 to 129 outer loop of get_get.go over the resolved package
list (the list always carries exactly one package in this source, but
the loop is kept). A non-nil outcome from any import aborts the
remaining siblings. -/
def downloadPkgs (env : Env)
    (dl : String → Option Package → List String → Bool → Bool → Bool → St → DLRes)
    (update insecure : Bool) :
    List Package → List String → St → DLRes
  | [], stk, st => (.ok, stk, st)
  | p :: rest, stk, st =>
    match downloadImports env dl p update insecure 0 p.imports stk st with
    | (.ok, stk1, st1) => downloadPkgs env dl update insecure rest stk1 st1
    | r => r

/-- Lines 88 to 131 of get_get.go: the single-mode early return, then
the dependency loop. -/
def downloadFinish (env : Env)
    (dl : String → Option Package → List String → Bool → Bool → Bool → St → DLRes)
    (pkgs : List Package) (update insecure single : Bool)
    (stk : List String) (st : St) : DLRes :=
  if single then (.ok, stk, st)
  else downloadPkgs env dl update insecure pkgs stk st

/-- Lines 31 to 131 of get_get.go, after the hard-error gate: replace
the requested path by the canonical ImportPath, stop on a standard
package, apply the downloadCache guard (recording only outside single
mode), fetch when the package has no directory or update is forced
(push the canonical path, run the orchestrator, pop, wrap any error,
reload the package and abort on any reload error), otherwise record the
best-effort repoRoot of the existing directory, then finish with the
dependency loop. A panic from the orchestrator propagates without the
pop, as in Go. -/
def downloadBody (env : Env)
    (dl : String → Option Package → List String → Bool → Bool → Bool → St → DLRes)
    (p : Package) (parent : Option Package) (stk : List String)
    (update insecure single : Bool) (st : St) : DLRes :=
  let path := p.importPath
  if p.standard then (.ok, stk, st)
  else if path ∈ st.downloadCache then (.ok, stk, st)
  else
    let st := if single then st
      else { st with downloadCache := path :: st.downloadCache }
    if p.dir = "" || update then
      let stk1 := stk ++ [path]
      match downloadPackage env st p update insecure with
      | (.err e, st1) =>
        (.err ⟨stk1, e.msg, false⟩, stk1.dropLast, st1)
      | (.panicked m, st1) => (.panicked m, stk1, st1)
      | (.ok, st1) =>
        let stk2 := stk1.dropLast
        let p2 := load1 env st1 parent path false
        match p2.error with
        | some e => (.err e, stk2, st1)
        | none => downloadFinish env dl [p2] update insecure single stk2 st1
    else
      let st := match env.vcsFromDir p.dir p.srcRoot with
        | .ok root => { st with repoPackages := (p.importPath, root) :: st.repoPackages }
        | .error _ => st
      downloadFinish env dl [p] update insecure single stk st

/-- Lines 11 to 21 of get_get.go: one unfolding of download. Load the
package (relative to the parent when present), abort on a hard package
error, and otherwise run the body. -/
def downloadStep (env : Env)
    (dl : String → Option Package → List String → Bool → Bool → Bool → St → DLRes)
    (path : String) (parent : Option Package) (stk : List String)
    (update insecure single : Bool) (st : St) : DLRes :=
  let p := load1 env st parent path false
  match p.error with
  | some e =>
    if e.hard then (.err e, stk, st)
    else downloadBody env dl p parent stk update insecure single st
  | none => downloadBody env dl p parent stk update insecure single st

/-- The recursive walker download of get_get.go, tied by fuel: the
recursive occurrences in the import loop run with one unit less. -/
def download (env : Env) :
    Nat → String → Option Package → List String → Bool → Bool → Bool → St → DLRes
  | 0, _, _, stk, _, _, _, st => (.fuelOut, stk, st)
  | fuel + 1, path, parent, stk, update, insecure, single, st =>
    downloadStep env (download env fuel) path parent stk update insecure single st

/-- Failure modes of the embedded hint pass: the nil-pointer panic from
dereferencing a missing packageCache entry, and fuel exhaustion
standing for non-termination of the recursion. -/
inductive HintErr where
  | nilPanic
  | fuelOut
deriving DecidableEq, Repr

/-- State of the hint pass: the hints map under construction, plus an
instrumentation log of every processPath invocation (by path). -/
structure HintSt where
  hints : List (String × List String)
  calls : List String
deriving DecidableEq, Repr

/-- Set-insertion into the url accumulator standing for the Go map of
urls (insertion order stands for the map iteration order). -/
def insertUrl (x : String) (l : List String) : List String :=
  if x ∈ l then l else l ++ [x]

/-- Lines 65 to 72 of the Getter declaration file: the loop over the
imports of a cached package, folding each recursive url set into the
accumulator. A failure of the recursion propagates. -/
def hintImports (pp : String → HintSt → Except HintErr (List String × HintSt)) :
    List String → List String → HintSt → Except HintErr (List String × HintSt)
  | [], urls, st => .ok (urls, st)
  | imp :: rest, urls, st =>
    match pp imp st with
    | .error e => .error e
    | .ok (us, st1) => hintImports pp rest (us.foldl (fun a u => insertUrl u a) urls) st1

/-- Lines 56 to 91 of the Getter declaration file: one unfolding of the
recursive local function processPath inside Get. The package is looked
up in packageCache and its Standard field is read before any nil check,
so a missing entry is the nil-pointer panic. A standard package
contributes nothing and writes no hint entry. Otherwise the import urls
are collected recursively, the repoPackages entry for this exact path
(or, failing that, a best-effort vcsFromDir resolution) is added, and
the array is recorded in the hints map. -/
def processPathStep (pkgCache : String → Option Package)
    (repoPkgs : List (String × RepoRoot))
    (vcs : String → String → Except String RepoRoot)
    (pp : String → HintSt → Except HintErr (List String × HintSt))
    (path : String) (st : HintSt) : Except HintErr (List String × HintSt) :=
  let st := { st with calls := st.calls ++ [path] }
  match pkgCache path with
  | none => .error .nilPanic
  | some p =>
    if p.standard then .ok ([], st)
    else
      match hintImports pp p.imports [] st with
      | .error e => .error e
      | .ok (urls, st1) =>
        let urls := match repoPkgs.lookup path with
          | some r => insertUrl r.repo urls
          | none =>
            match vcs p.dir p.srcRoot with
            | .ok root => insertUrl root.repo urls
            | .error _ => urls
        .ok (urls, { st1 with hints := (path, urls) :: st1.hints })

/-- The recursive hint computation of Get, tied by fuel. -/
def processPath (pkgCache : String → Option Package)
    (repoPkgs : List (String × RepoRoot))
    (vcs : String → String → Except String RepoRoot) :
    Nat → String → HintSt → Except HintErr (List String × HintSt)
  | 0, _, _ => .error .fuelOut
  | fuel + 1, path, st =>
    processPathStep pkgCache repoPkgs vcs
      (processPath pkgCache repoPkgs vcs fuel) path st

/-- The hard-error gate of line 19 of get_get.go as a Boolean: a nil
error is not hard. -/
def errIsHard : Option PackageError → Bool
  | some e => e.hard
  | none => false

/-- A standard-library package for a given import path (used by the
concrete environments below as the default loader answer). -/
def pkgStd (ip : String) : Package := ⟨ip, "/goroot/src/" ++ ip, true, [], none, [], "/goroot/src"⟩

/-- A minimal concrete environment: every collaborator answers
trivially; the loader returns a standard package for every path. The
concrete scenarios below override individual fields. -/
def baseEnv : Env where
  loadImport := fun _ p _ _ _ => pkgStd p
  vcsFromDir := fun _ _ => .error "no vcs"
  repoRootForImportPath := fun _ _ => .error "no repo"
  isSecure := fun _ => true
  gopathList := ["/gp"]
  goroot := "/goroot"
  clean := fun s => s
  join := fun a b => a ++ "/" ++ b
  fromSlash := fun s => s
  splitDir := fun s => s
  statAlldocs := fun _ => false
  stat := fun _ => false
  mkdirAll := fun _ => none
  createResult := fun _ => none
  findVendor := fun _ => none
  vendoredImportPath := fun _ _ => "VENDORED"
  sendPresent := true

/-- A resolved non-standard package with one extended-list-only import:
its raw build-declared import list is empty while Imports carries x/y,
so x/y is a test-only import in the sense of the source comment. -/
def pkgA : Package := ⟨"a", "/gp/src/a", false, ["x/y"], none, [], "/gp/src"⟩

/-- Environment for the test-import scenario: loading a yields pkgA;
vendoredImportPath rewrites every path to the marker VENDORED, so any
application of the rewrite would be visible in the recursion log. -/
def envC3 : Env :=
  { baseEnv with loadImport := fun _ p _ _ _ => if p = "a" then pkgA else pkgStd p }

/-- A non-standard package with the given imports, mirrored into the
raw build-declared list, located under a fixed directory. -/
def mkPkg (ip : String) (imps : List String) : Package :=
  ⟨ip, "/d/" ++ ip, false, imps, none, imps, "/gp/src"⟩

/-- Package cache for the diamond graph: root imports b and c, both of
which import a2, a leaf. a2 is reachable through two ancestors. -/
def c5cache : String → Option Package := fun p =>
  if p = "root" then some (mkPkg "root" ["b", "c"])
  else if p = "b" then some (mkPkg "b" ["a2"])
  else if p = "c" then some (mkPkg "c" ["a2"])
  else if p = "a2" then some (mkPkg "a2" [])
  else none

/-- repoPackages content for the diamond graph: only a2 has a recorded
repository. -/
def c5repos : List (String × RepoRoot) := [("a2", ⟨"a2", "https://r/a2", "", false⟩)]

/-- A vcsFromDir oracle that always fails, so hint urls come only from
repoPackages. -/
def c5vcs : String → String → Except String RepoRoot := fun _ _ => .error "none"

/-- Package cache with a one-node import cycle: a imports a. -/
def cyccache : String → Option Package := fun p =>
  if p = "a" then some (mkPkg "a" ["a"]) else none

/-- Package cache for the missing-entry scenario: r imports the cgo
pseudo-path C, which the walker never loads, so C has no entry. -/
def c10cache : String → Option Package := fun p =>
  if p = "r" then some (mkPkg "r" ["C"]) else none

/-- Projection of a hint-pass result onto its invocation log. -/
def hintCallsOf : Except HintErr (List String × HintSt) → Option (List String)
  | .ok (_, s) => some s.calls
  | .error _ => none

/-- The package b before fetching: no directory, no source root. -/
def pkgB0 : Package := ⟨"b", "", false, [], none, [], ""⟩

/-- A soft (non-hard) package error. -/
def softErr : PackageError := ⟨[], "soft problem", false⟩

/-- The package b as reloaded after its fetch: now on disk, with one
import, and carrying the soft error softErr. -/
def pkgB1 : Package := ⟨"b", "/gp/src/b", false, ["dep"], some softErr, ["dep"], "/gp/src"⟩

/-- Environment for the reload-after-fetch scenario: loading b yields
pkgB0 before any checkout exists and pkgB1 afterwards; the repository
of b resolves from the import path and checks out successfully. -/
def envC4 : Env := { baseEnv with
  loadImport := fun fs p _ _ _ =>
    if p = "b" then (if fs = [] then pkgB0 else pkgB1) else pkgStd p,
  repoRootForImportPath := fun p _ =>
    if p = "b" then .ok ⟨"b", "https://r/b", "", false⟩ else .error "no repo" }

/-- The state after the walker has fetched b in envC4, used to spell
out the reload step of that scenario. -/
def st2W : St :=
  (downloadPackage envC4 { St.start with downloadCache := ["b"] } pkgB0 false false).2

/-- A package carrying a soft error at its initial load, already on
disk, with one import. -/
def pkgS : Package := ⟨"s", "/d/s", false, ["dep"], some softErr, ["dep"], "/gp/src"⟩

/-- Environment where loading s yields the soft-errored pkgS. -/
def envC4a : Env :=
  { baseEnv with loadImport := fun _ p _ _ _ => if p = "s" then pkgS else pkgStd p }

/-- A resolved package whose canonical ImportPath gh/u/foo differs from
the spelling ./foo under which it can be requested. -/
def pkgFoo : Package := ⟨"gh/u/foo", "/gp/src/gh/u/foo", false, [], none, [], "/gp/src"⟩

/-- Environment where both spellings ./foo and gh/u/foo load to the
same canonical package pkgFoo. -/
def envC2 : Env := { baseEnv with
  loadImport := fun _ p _ _ _ =>
    if p = "./foo" then pkgFoo else if p = "gh/u/foo" then pkgFoo else pkgStd p }

/-- The state after a first walk of ./foo in envC2. -/
def st1W : St := (download envC2 1 "./foo" none [] false false false St.start).2.2

/-- A repository root as the resolver returns it for the

cache-hit scenario: no resolved dir yet, secure remote, no checkout. -/
def rootW1 : RepoRoot := ⟨"r", "https://r", "", false⟩

/-- The same root with its dir resolved, as recorded in the caches. -/
def rootE1 : RepoRoot := ⟨"r", "https://r", "/gp/src/r", false⟩

/-- A package already resolved on disk under /gp/src. -/
def pW1 : Package := ⟨"r", "/gp/src/r", false, [], none, [], "/gp/src"⟩

/-- Environment whose backend identifies the checkout of pW1 as rootW1. -/
def envW1 : Env :=
  { baseEnv with vcsFromDir := fun d _ => if d = "/gp/src/r" then .ok rootW1 else .error "no vcs" }

/-- A state in which the root dir of rootE1 was already handled: it is
recorded in downloadRootCache and its checkout has happened once. -/
def stW1 : St := { St.start with
  downloadRootCache := [("/gp/src/r", rootE1)], createCalls := ["/gp/src/r"] }

/-- A package whose repository resolves to an insecure remote. -/
def pW6 : Package := ⟨"q", "/gp/src/q", false, [], none, [], "/gp/src"⟩

/-- Environment with an insecure remote for the package pW6. -/
def envW6 : Env := { baseEnv with
  vcsFromDir := fun d _ => if d = "/gp/src/q" then .ok ⟨"q", "http://q", "", false⟩ else .error "no vcs",
  isSecure := fun _ => false }

/-- A repository root that already has a local checkout. -/
def rootW7 : RepoRoot := ⟨"w", "https://w", "", true⟩

/-- A package whose repository root rootW7 already exists locally. -/
def pW7 : Package := ⟨"w", "/gp/src/w", false, [], none, [], "/gp/src"⟩

/-- Environment whose backend identifies the checkout of pW7 as the
already-existing rootW7. -/
def envW7 : Env :=
  { baseEnv with vcsFromDir := fun d _ => if d = "/gp/src/w" then .ok rootW7 else .error "no vcs" }

/-- The multi-run checkout invariant of the Getter caches: the log of
backend checkout invocations has no duplicate directory, and every
checked-out directory is recorded in downloadRootCache. Preserving it
from the empty start state is the at-most-one-checkout-per-root
guarantee. -/
def CheckoutInv (st : St) : Prop :=
  st.createCalls.Nodup ∧ ∀ d ∈ st.createCalls, (st.downloadRootCache.lookup d).isSome

/-- How one walker or orchestrator step may change the Getter state:
the checkout invariant is preserved, the downloadCache only grows, the
backend update operation is never invoked, the vendor rewrite of the
dead test-import branch never fires, and the recursion log only grows. -/
def StEvolve (st st1 : St) : Prop :=
  (CheckoutInv st → CheckoutInv st1) ∧
  (∀ x, x ∈ st.downloadCache → x ∈ st1.downloadCache) ∧
  st1.updateCalls = st.updateCalls ∧
  st1.vendorRewrites = st.vendorRewrites ∧
  (∃ t, st1.downloadCalls = st.downloadCalls ++ t)

/-- A walker result is good for its entry stack and state when the
state evolves as in StEvolve and, unless the outcome is a propagating
panic, the import stack is restored to its entry value. -/
def GoodStep (stk : List String) (st : St) (r : DLRes) : Prop :=
  StEvolve st r.2.2 ∧ (r.1.isPanic = false → r.2.1 = stk)

theorem stEvolve_refl (st : St) : StEvolve st st :=
  ⟨id, fun _ h => h, Eq.refl _, Eq.refl _, ⟨[], by simp⟩⟩

theorem stEvolve_trans {a b c : St} (h1 : StEvolve a b) (h2 : StEvolve b c) :
    StEvolve a c := by
  obtain ⟨i1, m1, u1, v1, t1, ht1⟩ := h1
  obtain ⟨i2, m2, u2, v2, t2, ht2⟩ := h2
  exact ⟨fun h => i2 (i1 h), fun x hx => m2 x (m1 x hx), u2.trans u1, v2.trans v1,
    ⟨t1 ++ t2, by simp [ht2, ht1]⟩⟩

theorem lookup_cons_isSome {l : List (String × RepoRoot)} {k d : String} {v : RepoRoot}
    (h : (l.lookup d).isSome) : (((k, v) :: l).lookup d).isSome := by
  simp only [List.lookup]
  cases hd : d == k <;> simp [h]

theorem downloadRootPhase_fields (env : Env) (st : St) (root : RepoRoot) :
    (downloadRootPhase env st root).2.downloadCache = st.downloadCache ∧
    (downloadRootPhase env st root).2.repoPackages = st.repoPackages ∧
    (downloadRootPhase env st root).2.downloadCalls = st.downloadCalls ∧
    (downloadRootPhase env st root).2.vendorRewrites = st.vendorRewrites ∧
    (downloadRootPhase env st root).2.updateCalls = st.updateCalls := by
  unfold downloadRootPhase
  repeat' first
    | exact ⟨rfl, rfl, rfl, rfl, rfl⟩
    | split
    | dsimp only

theorem downloadRootPhase_cacheHit (env : Env) (st : St) (root : RepoRoot)
    (h : (st.downloadRootCache.lookup root.dir).isSome) :
    downloadRootPhase env st root = (.ok, st) := by
  unfold downloadRootPhase
  cases hm : st.downloadRootCache.lookup root.dir with
  | some r => simp
  | none => rw [hm] at h; simp at h

theorem downloadRootPhase_rootExists (env : Env) (st : St) (root : RepoRoot)
    (h : st.downloadRootCache.lookup root.dir = none) (he : root.exists_ = true) :
    (downloadRootPhase env st root).1 = .panicked "root exists" := by
  unfold downloadRootPhase
  rw [h, he]
  simp

theorem downloadRootPhase_shape (env : Env) (st : St) (root : RepoRoot) :
    ((downloadRootPhase env st root).2.downloadRootCache = st.downloadRootCache ∧
      (downloadRootPhase env st root).2.createCalls = st.createCalls) ∨
    (st.downloadRootCache.lookup root.dir = none ∧
      (downloadRootPhase env st root).2.downloadRootCache
        = (root.dir, root) :: st.downloadRootCache ∧
      ((downloadRootPhase env st root).2.createCalls = st.createCalls ∨
        (downloadRootPhase env st root).2.createCalls = st.createCalls ++ [root.dir])) := by
  unfold downloadRootPhase
  repeat' first
    | exact Or.inl ⟨rfl, rfl⟩
    | split
    | dsimp only
  all_goals (try simp_all)
  all_goals assumption

theorem downloadRootPhase_inv (env : Env) (st : St) (root : RepoRoot)
    (h : CheckoutInv st) : CheckoutInv (downloadRootPhase env st root).2 := by
  obtain ⟨hnd, hmem⟩ := h
  rcases downloadRootPhase_shape env st root with ⟨hc, hcc⟩ | ⟨hm, hc, hcc | hcc⟩
  · exact ⟨hcc ▸ hnd, fun d hd => hc ▸ hmem d (hcc ▸ hd)⟩
  · exact ⟨hcc ▸ hnd, fun d hd => hc ▸ lookup_cons_isSome (hmem d (hcc ▸ hd))⟩
  · have hroot : root.dir ∉ st.createCalls := fun hin => by
      have := hmem root.dir hin
      rw [hm] at this
      simp at this
    refine ⟨hcc ▸ ?_, fun d hd => ?_⟩
    · simp [List.nodup_append, hnd, hroot]
    · rw [hcc] at hd
      rcases List.mem_append.mp hd with hd | hd
      · exact hc ▸ lookup_cons_isSome (hmem d hd)
      · simp at hd
        subst hd
        rw [hc]
        simp [List.lookup]

theorem downloadPackage_fields (env : Env) (st : St) (p : Package) (u i : Bool) :
    (downloadPackage env st p u i).2.downloadCache = st.downloadCache ∧
    (downloadPackage env st p u i).2.downloadCalls = st.downloadCalls ∧
    (downloadPackage env st p u i).2.vendorRewrites = st.vendorRewrites ∧
    (downloadPackage env st p u i).2.updateCalls = st.updateCalls := by
  unfold downloadPackage
  repeat' first
    | exact ⟨rfl, rfl, rfl, rfl⟩
    | split
    | dsimp only
  all_goals
    exact ⟨(downloadRootPhase_fields _ _ _).1, (downloadRootPhase_fields _ _ _).2.2.1,
      (downloadRootPhase_fields _ _ _).2.2.2.1, (downloadRootPhase_fields _ _ _).2.2.2.2⟩

theorem downloadPackage_inv (env : Env) (st : St) (p : Package) (u i : Bool)
    (h : CheckoutInv st) : CheckoutInv (downloadPackage env st p u i).2 := by
  unfold downloadPackage
  repeat' first
    | exact h
    | split
    | dsimp only
  all_goals
    exact downloadRootPhase_inv _ _ _ h

theorem downloadPackage_evolve (env : Env) (st : St) (p : Package) (u i : Bool) :
    StEvolve st (downloadPackage env st p u i).2 := by
  obtain ⟨hdc, hcl, hvr, huc⟩ := downloadPackage_fields env st p u i
  exact ⟨downloadPackage_inv env st p u i, fun x hx => hdc ▸ hx, huc, hvr, ⟨[], by simp [hcl]⟩⟩

theorem downloadRootPhase_no_insecure (env : Env) (st : St) (root : RepoRoot)
    (rep : String) :
    (downloadRootPhase env st root).1 ≠ DPOutcome.err (.insecure rep) := by
  unfold downloadRootPhase
  repeat' first
    | simp
    | split
    | dsimp only

theorem downloadPackage_insecure (env : Env) (st : St) (p : Package) (u i : Bool)
    (rep : String) :
    (downloadPackage env st p u i).1 = .err (.insecure rep) →
    (downloadPackage env st p u i).2 = st := by
  unfold downloadPackage
  repeat' first
    | exact fun _ => rfl
    | split
    | dsimp only
  all_goals intro h
  all_goals first
    | rfl
    | exact absurd h (downloadRootPhase_no_insecure _ _ _ _)

theorem downloadPackage_reach (env : Env) (st : St) (p : Package) (u i : Bool)
    (root : RepoRoot) (srcRoot : String)
    (h1 : resolveRepo env p i = .ok root)
    (h2 : (!env.isSecure root.repo && !i) = false)
    (h3 : gopathSrcRoot env p = .ok srcRoot)
    (h4 : root.dir = "" ∨ root.dir = env.join srcRoot (env.fromSlash root.root)) :
    downloadPackage env st p u i =
      downloadRootPhase env
        { st with repoPackages :=
            (p.importPath, { root with dir := env.join srcRoot (env.fromSlash root.root) })
              :: st.repoPackages }
        { root with dir := env.join srcRoot (env.fromSlash root.root) } := by
  unfold downloadPackage
  simp only [h1, h2, Bool.false_eq_true, if_false, h3]
  rcases h4 with h4 | h4
  · rw [if_pos h4]
  · by_cases h0 : root.dir = ""
    · rw [if_pos h0]
    · rw [if_neg h0]
      have hne : ¬root.dir ≠ env.join srcRoot (env.fromSlash root.root) := by simp [h4]
      rw [if_neg hne]
      have heq : ({ root with dir := env.join srcRoot (env.fromSlash root.root) } : RepoRoot)
          = root := by
        cases root
        simp_all
      rw [heq]

theorem stEvolve_appendCalls (st : St) (l : List String) :
    StEvolve st { st with downloadCalls := st.downloadCalls ++ l } :=
  ⟨fun h => h, fun _ hx => hx, rfl, rfl, ⟨l, rfl⟩⟩

theorem stEvolve_consCache (st : St) (c : String) :
    StEvolve st { st with downloadCache := c :: st.downloadCache } :=
  ⟨fun h => h, fun _ hx => List.mem_cons_of_mem _ hx, rfl, rfl, ⟨[], by simp⟩⟩

theorem stEvolve_consRepo (st : St) (k : String) (r : RepoRoot) :
    StEvolve st { st with repoPackages := (k, r) :: st.repoPackages } :=
  ⟨fun h => h, fun _ hx => hx, rfl, rfl, ⟨[], by simp⟩⟩

theorem downloadImports_good (env : Env)
    (dl : String → Option Package → List String → Bool → Bool → Bool → St → DLRes)
    (p : Package) (u i : Bool)
    (hdl : ∀ path par stk st, GoodStep stk st (dl path par stk u i false st)) :
    ∀ (l : List String) (idx : Nat) (stk : List String) (st : St),
      idx + l.length ≤ p.imports.length →
      GoodStep stk st (downloadImports env dl p u i idx l stk st) := by
  intro l
  induction l with
  | nil => exact fun idx stk st _ => ⟨stEvolve_refl st, fun _ => rfl⟩
  | cons path rest ih =>
    intro idx stk st hlen
    unfold downloadImports
    by_cases hC : path = "C"
    · rw [if_pos hC]
      exact ih (idx + 1) stk st (by simp at hlen ⊢; omega)
    · rw [if_neg hC]
      dsimp only
      cases hfv : env.findVendor (match p.buildImports[idx]? with
          | some o => o
          | none => path) with
      | some j =>
        dsimp only
        exact ⟨stEvolve_refl st, fun _ => List.dropLast_concat⟩
      | none =>
        dsimp only
        have hidx : ¬ idx ≥ p.imports.length := by
          simp only [List.length_cons] at hlen
          simp
          omega
        rw [if_neg hidx, if_neg hidx]
        have hev1 : StEvolve st { st with downloadCalls := st.downloadCalls ++ [path] } :=
          stEvolve_appendCalls st [path]
        rcases hr : dl path (some p) stk u i false
            { st with downloadCalls := st.downloadCalls ++ [path] } with ⟨o, stk1, st1⟩
        have hg := hdl path (some p) stk { st with downloadCalls := st.downloadCalls ++ [path] }
        rw [hr] at hg
        cases o with
        | ok =>
          have hstk : stk1 = stk := hg.2 rfl
          have hrest := ih (idx + 1) stk1 st1 (by simp at hlen ⊢; omega)
          subst hstk
          exact ⟨stEvolve_trans (stEvolve_trans hev1 hg.1) hrest.1, hrest.2⟩
        | err e => exact ⟨stEvolve_trans hev1 hg.1, hg.2⟩
        | panicked m => exact ⟨stEvolve_trans hev1 hg.1, hg.2⟩
        | fuelOut => exact ⟨stEvolve_trans hev1 hg.1, hg.2⟩

theorem downloadPkgs_good (env : Env)
    (dl : String → Option Package → List String → Bool → Bool → Bool → St → DLRes)
    (u i : Bool)
    (hdl : ∀ path par stk st, GoodStep stk st (dl path par stk u i false st)) :
    ∀ (pkgs : List Package) (stk : List String) (st : St),
      GoodStep stk st (downloadPkgs env dl u i pkgs stk st) := by
  intro pkgs
  induction pkgs with
  | nil => exact fun stk st => ⟨stEvolve_refl st, fun _ => rfl⟩
  | cons p rest ih =>
    intro stk st
    unfold downloadPkgs
    rcases hr : downloadImports env dl p u i 0 p.imports stk st with ⟨o, stk1, st1⟩
    have hg := downloadImports_good env dl p u i hdl p.imports 0 stk st (by simp)
    rw [hr] at hg
    cases o with
    | ok =>
      have hstk : stk1 = stk := hg.2 rfl
      subst hstk
      exact ⟨stEvolve_trans hg.1 (ih stk1 st1).1, (ih stk1 st1).2⟩
    | err e => exact hg
    | panicked m => exact hg
    | fuelOut => exact hg

theorem downloadFinish_good (env : Env)
    (dl : String → Option Package → List String → Bool → Bool → Bool → St → DLRes)
    (pkgs : List Package) (u i s : Bool) (stk : List String) (st : St)
    (hdl : ∀ path par stk st, GoodStep stk st (dl path par stk u i false st)) :
    GoodStep stk st (downloadFinish env dl pkgs u i s stk st) := by
  unfold downloadFinish
  by_cases hs : s = true
  · rw [if_pos hs]
    exact ⟨stEvolve_refl st, fun _ => rfl⟩
  · rw [if_neg hs]
    exact downloadPkgs_good env dl u i hdl pkgs stk st

theorem downloadBody_good (env : Env)
    (dl : String → Option Package → List String → Bool → Bool → Bool → St → DLRes)
    (p : Package) (par : Option Package) (stk : List String) (u i s : Bool) (st : St)
    (hdl : ∀ path par stk st, GoodStep stk st (dl path par stk u i false st)) :
    GoodStep stk st (downloadBody env dl p par stk u i s st) := by
  unfold downloadBody
  dsimp only
  by_cases hstd : p.standard = true
  · rw [if_pos hstd]
    exact ⟨stEvolve_refl st, fun _ => rfl⟩
  · rw [if_neg hstd]
    by_cases hmem : p.importPath ∈ st.downloadCache
    · rw [if_pos hmem]
      exact ⟨stEvolve_refl st, fun _ => rfl⟩
    · rw [if_neg hmem]
      have hev0 : StEvolve st (if s then st
          else { st with downloadCache := p.importPath :: st.downloadCache }) := by
        by_cases hs : s = true
        · rw [if_pos hs]; exact stEvolve_refl st
        · rw [if_neg hs]; exact stEvolve_consCache st p.importPath
      set stI := (if s then st
        else { st with downloadCache := p.importPath :: st.downloadCache }) with hstI
      by_cases hfetch : (p.dir = "" || u) = true
      · rw [if_pos hfetch]
        rcases hdp : downloadPackage env stI p u i with ⟨o, st1⟩
        have hev1 : StEvolve stI st1 := by
          have := downloadPackage_evolve env stI p u i
          rw [hdp] at this
          exact this
        cases o with
        | err e =>
          exact ⟨stEvolve_trans hev0 hev1, fun _ => List.dropLast_concat⟩
        | panicked m =>
          exact ⟨stEvolve_trans hev0 hev1, fun hp => by simp [DLOutcome.isPanic] at hp⟩
        | ok =>
          dsimp only
          cases hp2 : (load1 env st1 par p.importPath false).error with
          | some e =>
            exact ⟨stEvolve_trans hev0 hev1, fun _ => List.dropLast_concat⟩
          | none =>
            have hfin := downloadFinish_good env dl [load1 env st1 par p.importPath false]
              u i s ((stk ++ [p.importPath]).dropLast) st1 hdl
            exact ⟨stEvolve_trans (stEvolve_trans hev0 hev1) hfin.1,
              fun hp => (hfin.2 hp).trans List.dropLast_concat⟩
      · rw [if_neg hfetch]
        have hev1 : StEvolve stI (match env.vcsFromDir p.dir p.srcRoot with
            | .ok root => { stI with repoPackages := (p.importPath, root) :: stI.repoPackages }
            | .error _ => stI) := by
          cases env.vcsFromDir p.dir p.srcRoot with
          | ok root => exact stEvolve_consRepo stI p.importPath root
          | error e => exact stEvolve_refl stI
        cases hv : env.vcsFromDir p.dir p.srcRoot with
        | ok root =>
          rw [hv] at hev1
          have hfin := downloadFinish_good env dl [p] u i s stk
            { stI with repoPackages := (p.importPath, root) :: stI.repoPackages } hdl
          exact ⟨stEvolve_trans (stEvolve_trans hev0 hev1) hfin.1, hfin.2⟩
        | error e =>
          rw [hv] at hev1
          have hfin := downloadFinish_good env dl [p] u i s stk stI hdl
          exact ⟨stEvolve_trans (stEvolve_trans hev0 hev1) hfin.1, hfin.2⟩

theorem downloadStep_good (env : Env)
    (dl : String → Option Package → List String → Bool → Bool → Bool → St → DLRes)
    (path : String) (par : Option Package) (stk : List String) (u i s : Bool) (st : St)
    (hdl : ∀ path par stk st, GoodStep stk st (dl path par stk u i false st)) :
    GoodStep stk st (downloadStep env dl path par stk u i s st) := by
  unfold downloadStep
  dsimp only
  cases (load1 env st par path false).error with
  | some e =>
    dsimp only
    by_cases hh : e.hard = true
    · rw [if_pos hh]
      exact ⟨stEvolve_refl st, fun _ => rfl⟩
    · rw [if_neg hh]
      exact downloadBody_good env dl _ par stk u i s st hdl
  | none => exact downloadBody_good env dl _ par stk u i s st hdl

theorem download_good (env : Env) :
    ∀ (fuel : Nat) (path : String) (par : Option Package) (stk : List String)
      (u i s : Bool) (st : St),
      GoodStep stk st (download env fuel path par stk u i s st) := by
  intro fuel
  induction fuel with
  | zero => exact fun path par stk u i s st => ⟨stEvolve_refl st, fun _ => rfl⟩
  | succ n ih =>
    intro path par stk u i s st
    exact downloadStep_good env (download env n) path par stk u i s st
      (fun path par stk st => ih path par stk u i false st)

theorem downloadFinish_single (env : Env)
    (dl : String → Option Package → List String → Bool → Bool → Bool → St → DLRes)
    (pkgs : List Package) (u i : Bool) (stk : List String) (st : St) :
    downloadFinish env dl pkgs u i true stk st = (.ok, stk, st) := by
  unfold downloadFinish
  simp

theorem downloadBody_single_calls (env : Env)
    (dl : String → Option Package → List String → Bool → Bool → Bool → St → DLRes)
    (p : Package) (par : Option Package) (stk : List String) (u i : Bool) (st : St) :
    (downloadBody env dl p par stk u i true st).2.2.downloadCalls = st.downloadCalls := by
  unfold downloadBody
  dsimp only
  by_cases hstd : p.standard = true
  · rw [if_pos hstd]
  · rw [if_neg hstd]
    by_cases hmem : p.importPath ∈ st.downloadCache
    · rw [if_pos hmem]
    · rw [if_neg hmem, if_pos rfl]
      by_cases hfetch : (p.dir = "" || u) = true
      · rw [if_pos hfetch]
        rcases hdp : downloadPackage env st p u i with ⟨o, st1⟩
        have hf : st1.downloadCalls = st.downloadCalls := by
          have := (downloadPackage_fields env st p u i).2.1
          rw [hdp] at this
          exact this
        cases o with
        | err e => exact hf
        | panicked m => exact hf
        | ok =>
          dsimp only
          cases hp2 : (load1 env st1 par p.importPath false).error with
          | some e => exact hf
          | none => rw [downloadFinish_single]; exact hf
      · rw [if_neg hfetch]
        cases hv : env.vcsFromDir p.dir p.srcRoot with
        | ok root => rw [downloadFinish_single]
        | error e => rw [downloadFinish_single]

theorem downloadStep_single_calls (env : Env)
    (dl : String → Option Package → List String → Bool → Bool → Bool → St → DLRes)
    (path : String) (par : Option Package) (stk : List String) (u i : Bool) (st : St) :
    (downloadStep env dl path par stk u i true st).2.2.downloadCalls = st.downloadCalls := by
  unfold downloadStep
  dsimp only
  cases (load1 env st par path false).error with
  | some e =>
    dsimp only
    by_cases hh : e.hard = true
    · rw [if_pos hh]
    · rw [if_neg hh]
      exact downloadBody_single_calls env dl _ par stk u i st
  | none => exact downloadBody_single_calls env dl _ par stk u i st

theorem downloadStep_not_hard (env : Env)
    (dl : String → Option Package → List String → Bool → Bool → Bool → St → DLRes)
    (path : String) (par : Option Package) (stk : List String) (u i s : Bool) (st : St)
    (h : errIsHard (load1 env st par path false).error = false) :
    downloadStep env dl path par stk u i s st =
      downloadBody env dl (load1 env st par path false) par stk u i s st := by
  unfold downloadStep
  dsimp only
  cases he : (load1 env st par path false).error with
  | none => rfl
  | some e =>
    rw [he] at h
    simp only [errIsHard] at h
    dsimp only
    rw [if_neg (by simp [h])]

theorem downloadBody_cached (env : Env)
    (dl : String → Option Package → List String → Bool → Bool → Bool → St → DLRes)
    (p : Package) (par : Option Package) (stk : List String) (u i s : Bool) (st : St)
    (hs : p.standard = false) (hc : p.importPath ∈ st.downloadCache) :
    downloadBody env dl p par stk u i s st = (.ok, stk, st) := by
  unfold downloadBody
  dsimp only
  rw [if_neg (by simp [hs]), if_pos hc]

theorem downloadBody_records (env : Env)
    (dl : String → Option Package → List String → Bool → Bool → Bool → St → DLRes)
    (p : Package) (par : Option Package) (stk : List String) (u i : Bool) (st : St)
    (hdl : ∀ path par stk st, GoodStep stk st (dl path par stk u i false st))
    (hs : p.standard = false)
    (hc : p.importPath ∉ st.downloadCache) :
    p.importPath ∈ (downloadBody env dl p par stk u i false st).2.2.downloadCache := by
  unfold downloadBody
  dsimp only
  rw [if_neg (by simp [hs]), if_neg hc, if_neg Bool.false_ne_true]
  have hmem : p.importPath ∈
      ({ st with downloadCache := p.importPath :: st.downloadCache } : St).downloadCache :=
    List.mem_cons_self _ _
  by_cases hfetch : (p.dir = "" || u) = true
  · rw [if_pos hfetch]
    rcases hdp : downloadPackage env
      { st with downloadCache := p.importPath :: st.downloadCache } p u i with ⟨o, st1⟩
    have hf : st1.downloadCache
        = ({ st with downloadCache := p.importPath :: st.downloadCache } : St).downloadCache := by
      have := (downloadPackage_fields env
        { st with downloadCache := p.importPath :: st.downloadCache } p u i).1
      rw [hdp] at this
      exact this
    cases o with
    | err e => exact hf ▸ hmem
    | panicked m => exact hf ▸ hmem
    | ok =>
      dsimp only
      cases hp2 : (load1 env st1 par p.importPath false).error with
      | some e => exact hf ▸ hmem
      | none =>
        have hfin := (downloadFinish_good env dl [load1 env st1 par p.importPath false]
          u i false ((stk ++ [p.importPath]).dropLast) st1 hdl).1.2.1
        exact hfin p.importPath (hf ▸ hmem)
  · rw [if_neg hfetch]
    cases hv : env.vcsFromDir p.dir p.srcRoot with
    | ok root =>
      have hfin := (downloadFinish_good env dl [p] u i false stk
        { st with
          downloadCache := p.importPath :: st.downloadCache
          repoPackages := (p.importPath, root) :: st.repoPackages } hdl).1.2.1
      exact hfin p.importPath hmem
    | error e =>
      have hfin := (downloadFinish_good env dl [p] u i false stk
        { st with downloadCache := p.importPath :: st.downloadCache } hdl).1.2.1
      exact hfin p.importPath hmem

theorem download_succ (env : Env) (fuel : Nat) (path : String) (par : Option Package)
    (stk : List String) (u i s : Bool) (st : St) :
    download env (fuel + 1) path par stk u i s st
      = downloadStep env (download env fuel) path par stk u i s st := rfl

theorem download_records (env : Env) (fuel : Nat) (path : String) (par : Option Package)
    (stk : List String) (u i : Bool) (st : St)
    (h1 : errIsHard (load1 env st par path false).error = false)
    (h2 : (load1 env st par path false).standard = false)
    (h3 : (load1 env st par path false).importPath ∉ st.downloadCache) :
    (load1 env st par path false).importPath
      ∈ (download env (fuel + 1) path par stk u i false st).2.2.downloadCache := by
  rw [download_succ, downloadStep_not_hard env _ path par stk u i false st h1]
  exact downloadBody_records env _ _ par stk u i st
    (fun path par stk st => download_good env fuel path par stk u i false st) h2 h3

/-- Claim C6: whenever downloadPackage returns the insecure-transport
error, no filesystem mutation has occurred: MkdirAll was never invoked
and the backend checkout was never invoked (the whole Getter state is
in fact unchanged, of which the two logs are the claim-relevant
projections). -/
theorem insecure_error_no_filesystem_mutation (env : Env) (st : St) (p : Package)
    (u i : Bool) (rep : String)
    (h : (downloadPackage env st p u i).1 = .err (.insecure rep)) :
    (downloadPackage env st p u i).2.mkdirCalls = st.mkdirCalls ∧
    (downloadPackage env st p u i).2.createCalls = st.createCalls := by
  rw [downloadPackage_insecure env st p u i rep h]
  exact ⟨rfl, rfl⟩

/-- Witness for C6: a concrete package whose repository resolves to an
insecure remote with insecure not set; the orchestrator returns the
insecure error and both mutation logs are untouched. -/
theorem insecure_error_no_filesystem_mutation_witness :
    (downloadPackage envW6 St.start pW6 false false).1
      = .err (.insecure "http://q") ∧
    (downloadPackage envW6 St.start pW6 false false).2.mkdirCalls = St.start.mkdirCalls ∧
    (downloadPackage envW6 St.start pW6 false false).2.createCalls = St.start.createCalls :=
  ⟨by decide,
    insecure_error_no_filesystem_mutation envW6 St.start pW6 false false "http://q" (by decide)⟩

/-- Claim C8: download leaves the ImportStack at its original depth and
contents on every return path, on success and on error alike; only a
propagating Go panic (which is not a return) is excluded. -/
theorem importStack_balanced (env : Env) (fuel : Nat) (path : String)
    (par : Option Package) (stk : List String) (u i s : Bool) (st : St)
    (h : (download env fuel path par stk u i s st).1.isPanic = false) :
    (download env fuel path par stk u i s st).2.1 = stk :=
  (download_good env fuel path par stk u i s st).2 h

/-- Witness for C8: a concrete non-panicking run returns with the entry
stack intact. -/
theorem importStack_balanced_witness :
    (download baseEnv 1 "x" none ["p0"] false false false St.start).1.isPanic = false ∧
    (download baseEnv 1 "x" none ["p0"] false false false St.start).2.1 = ["p0"] :=
  ⟨by decide, importStack_balanced baseEnv 1 "x" none ["p0"] false false false St.start (by decide)⟩

/-- Claim C9: with single set, download never recurses into the
resolved package imports, whatever the package declares: the log of
recursive walker invocations is unchanged, for every environment, fuel,
path, parent, stack, flags and state. -/
theorem single_mode_no_recursion (env : Env) (fuel : Nat) (path : String)
    (par : Option Package) (stk : List String) (u i : Bool) (st : St) :
    (download env fuel path par stk u i true st).2.2.downloadCalls = st.downloadCalls := by
  cases fuel with
  | zero => rfl
  | succ n =>
    rw [download_succ]
    exact downloadStep_single_calls env (download env n) path par stk u i st

/-- Claim C1: the backend checkout runs at most once per distinct local
repository-root directory in a run. The checkout invariant (no
duplicate directory in the checkout log, every checked-out directory
recorded in downloadRootCache) holds at the fresh Getter state and is
preserved by every orchestrator call and every walker call; and once a
root directory is recorded, a later orchestrator call resolving to the
same directory returns successfully with no further checkout. -/
theorem downloadRootCache_checkout_at_most_once :
    CheckoutInv St.start ∧
    (∀ (env : Env) (st : St) (p : Package) (u i : Bool),
      CheckoutInv st → CheckoutInv (downloadPackage env st p u i).2) ∧
    (∀ (env : Env) (fuel : Nat) (path : String) (par : Option Package)
      (stk : List String) (u i s : Bool) (st : St),
      CheckoutInv st → CheckoutInv (download env fuel path par stk u i s st).2.2) ∧
    (∀ (env : Env) (st : St) (p : Package) (u i : Bool) (root : RepoRoot)
      (srcRoot : String),
      resolveRepo env p i = .ok root →
      (!env.isSecure root.repo && !i) = false →
      gopathSrcRoot env p = .ok srcRoot →
      (root.dir = "" ∨ root.dir = env.join srcRoot (env.fromSlash root.root)) →
      ((st.downloadRootCache.lookup (env.join srcRoot (env.fromSlash root.root))).isSome) →
      (downloadPackage env st p u i).1 = .ok ∧
      (downloadPackage env st p u i).2.createCalls = st.createCalls) := by
  refine ⟨⟨List.nodup_nil, fun d hd => absurd hd (List.not_mem_nil d)⟩, downloadPackage_inv,
    fun env fuel path par stk u i s st h => (download_good env fuel path par stk u i s st).1.1 h,
    fun env st p u i root srcRoot h1 h2 h3 h4 h5 => ?_⟩
  rw [downloadPackage_reach env st p u i root srcRoot h1 h2 h3 h4]
  rw [downloadRootPhase_cacheHit env _ _ h5]
  exact ⟨rfl, rfl⟩

/-- Witness for C1: a state whose caches already record the root
directory of package pW1 satisfies the checkout invariant, and a
further orchestrator call for pW1 returns successfully without another
checkout. -/
theorem downloadRootCache_checkout_at_most_once_witness :
    CheckoutInv stW1 ∧
    (downloadPackage envW1 stW1 pW1 false false).1 = .ok ∧
    (downloadPackage envW1 stW1 pW1 false false).2.createCalls = stW1.createCalls := by
  refine ⟨⟨by decide, by decide⟩, downloadRootCache_checkout_at_most_once.2.2.2 envW1 stW1 pW1
    false false rootW1 "/gp/src" (by rfl) (by decide) (by rfl) (Or.inl (by decide)) (by decide)⟩

/-- Claim C7: the backend update operation is unreachable: no
orchestrator call and no walker call ever extends the update log; and
an orchestrator call that reaches the existing-checkout branch (root
resolved, security gate passed, source root derived, directory
agreement, root directory not yet cached, local checkout exists) halts
with the unconditional panic before the update call. -/
theorem update_path_unreachable :
    (∀ (env : Env) (st : St) (p : Package) (u i : Bool),
      (downloadPackage env st p u i).2.updateCalls = st.updateCalls) ∧
    (∀ (env : Env) (fuel : Nat) (path : String) (par : Option Package)
      (stk : List String) (u i s : Bool) (st : St),
      (download env fuel path par stk u i s st).2.2.updateCalls = st.updateCalls) ∧
    (∀ (env : Env) (st : St) (p : Package) (u i : Bool) (root : RepoRoot)
      (srcRoot : String),
      resolveRepo env p i = .ok root →
      (!env.isSecure root.repo && !i) = false →
      gopathSrcRoot env p = .ok srcRoot →
      (root.dir = "" ∨ root.dir = env.join srcRoot (env.fromSlash root.root)) →
      (st.downloadRootCache.lookup (env.join srcRoot (env.fromSlash root.root))) = none →
      root.exists_ = true →
      (downloadPackage env st p u i).1 = .panicked "root exists") := by
  refine ⟨fun env st p u i => (downloadPackage_fields env st p u i).2.2.2,
    fun env fuel path par stk u i s st => (download_good env fuel path par stk u i s st).1.2.2.1,
    fun env st p u i root srcRoot h1 h2 h3 h4 h5 h6 => ?_⟩
  rw [downloadPackage_reach env st p u i root srcRoot h1 h2 h3 h4]
  exact downloadRootPhase_rootExists env _ _ h5 h6

/-- Witness for C7: a package whose repository root already has a local
checkout makes the orchestrator panic with root exists. -/
theorem update_path_unreachable_witness :
    rootW7.exists_ = true ∧
    (downloadPackage envW7 St.start pW7 false false).1 = .panicked "root exists" :=
  ⟨by decide, update_path_unreachable.2.2 envW7 St.start pW7 false false rootW7 "/gp/src"
    (by rfl) (by decide) (by rfl) (Or.inl (by decide)) (by rfl) (by decide)⟩

/-- Claim C2: walker caching keys on the canonical ImportPath returned
by the loader, not on the caller spelling. If a first walk of spelling
s1 resolves to canonical path c (no hard error, not standard, c not yet
cached, not single mode), then any second walk of any spelling s2 that
the loader also resolves to c is short-circuited by the downloadCache
guard: it returns nil immediately with the state unchanged, so the
package triggers no second fetch. -/
theorem downloadCache_keys_canonical_importPath (env : Env) (f1 f2 : Nat)
    (s1 s2 c : String) (par1 par2 : Option Package) (stk1 stk2 : List String)
    (u1 i1 u2 i2 sg2 : Bool) (st : St)
    (h1 : errIsHard (load1 env st par1 s1 false).error = false)
    (h2 : (load1 env st par1 s1 false).standard = false)
    (h3 : (load1 env st par1 s1 false).importPath = c)
    (h4 : c ∉ st.downloadCache)
    (h5 : errIsHard (load1 env (download env (f1 + 1) s1 par1 stk1 u1 i1 false st).2.2
        par2 s2 false).error = false)
    (h6 : (load1 env (download env (f1 + 1) s1 par1 stk1 u1 i1 false st).2.2
        par2 s2 false).standard = false)
    (h7 : (load1 env (download env (f1 + 1) s1 par1 stk1 u1 i1 false st).2.2
        par2 s2 false).importPath = c) :
    download env (f2 + 1) s2 par2 stk2 u2 i2 sg2
        (download env (f1 + 1) s1 par1 stk1 u1 i1 false st).2.2
      = (.ok, stk2, (download env (f1 + 1) s1 par1 stk1 u1 i1 false st).2.2) := by
  have hrec : c ∈ (download env (f1 + 1) s1 par1 stk1 u1 i1 false st).2.2.downloadCache := by
    have := download_records env f1 s1 par1 stk1 u1 i1 st h1 h2 (h3 ▸ h4)
    rw [h3] at this
    exact this
  rw [download_succ, downloadStep_not_hard env _ s2 par2 stk2 u2 i2 sg2 _ h5]
  exact downloadBody_cached env _ _ par2 stk2 u2 i2 sg2 _ h6 (h7 ▸ hrec)

/-- Witness for C2: in envC2 both ./foo and gh/u/foo load to the same
canonical package; after a first walk of ./foo, a walk of the canonical
spelling gh/u/foo is a no-op returning nil with the state unchanged. -/
theorem downloadCache_keys_canonical_importPath_witness :
    (load1 envC2 St.start none "./foo" false).importPath = "gh/u/foo" ∧
    "gh/u/foo" ∈ st1W.downloadCache ∧
    download envC2 1 "gh/u/foo" none [] false false true st1W = (.ok, [], st1W) := by
  refine ⟨by decide, by decide, ?_⟩
  have h := downloadCache_keys_canonical_importPath envC2 0 0 "./foo" "gh/u/foo" "gh/u/foo"
    none none [] [] false false false false true St.start
    (by decide) (by decide) (by decide) (by decide) (by decide) (by decide) (by decide)
  exact h

/-- Claim C3 (the code as written): the test-import vendor rewrite is
dead. In every walker execution the vendor rewrite log never grows; in
the concrete scenario envC3 the package a carries the test-only import
x/y (present in Imports beyond the empty raw build-declared list), yet
the recursion receives the unrewritten path x/y even though the
vendoring-aware lookup would have produced VENDORED. -/
theorem test_import_vendor_rewrite_never_applied :
    (∀ (env : Env) (fuel : Nat) (path : String) (par : Option Package)
      (stk : List String) (u i s : Bool) (st : St),
      (download env fuel path par stk u i s st).2.2.vendorRewrites = st.vendorRewrites) ∧
    pkgA.buildImports = [] ∧ pkgA.imports = ["x/y"] ∧
    envC3.vendoredImportPath pkgA "x/y" = "VENDORED" ∧
    (download envC3 5 "a" none [] false false false St.start).2.2.downloadCalls = ["x/y"] ∧
    (download envC3 5 "a" none [] false false false St.start).2.2.vendorRewrites = [] :=
  ⟨fun env fuel path par stk u i s st =>
      (download_good env fuel path par stk u i s st).1.2.2.2.1,
    by decide, by decide, by decide, by decide, by decide⟩

theorem downloadPkgs_one_calls (env : Env)
    (dl : String → Option Package → List String → Bool → Bool → Bool → St → DLRes)
    (p : Package) (u i : Bool) (stk : List String) (st : St) :
    (downloadPkgs env dl u i [p] stk st).2.2.downloadCalls
      = (downloadImports env dl p u i 0 p.imports stk st).2.2.downloadCalls := by
  unfold downloadPkgs
  rcases hr : downloadImports env dl p u i 0 p.imports stk st with ⟨o, stk1, st1⟩
  cases o with
  | ok => rfl
  | err e => rfl
  | panicked m => rfl
  | fuelOut => rfl

theorem downloadImports_first_call (env : Env)
    (dl : String → Option Package → List String → Bool → Bool → Bool → St → DLRes)
    (p : Package) (u i : Bool) (stk : List String) (st : St) (imp : String)
    (rest : List String)
    (hdl : ∀ path par stk st, GoodStep stk st (dl path par stk u i false st))
    (hC : imp ≠ "C")
    (hfv : env.findVendor (match p.buildImports[0]? with
      | some o => o
      | none => imp) = none)
    (him : p.imports = imp :: rest) :
    ∃ t, (downloadImports env dl p u i 0 (imp :: rest) stk st).2.2.downloadCalls
        = st.downloadCalls ++ imp :: t := by
  unfold downloadImports
  rw [if_neg hC]
  dsimp only
  rw [hfv]
  dsimp only
  have hlen : ¬ (0 : Nat) ≥ p.imports.length := by rw [him]; simp
  rw [if_neg hlen, if_neg hlen]
  rcases hr : dl imp (some p)
      stk u i false { st with downloadCalls := st.downloadCalls ++ [imp] } with ⟨o, stk1, st1⟩
  have hg := hdl imp (some p) stk { st with downloadCalls := st.downloadCalls ++ [imp] }
  rw [hr] at hg
  obtain ⟨t0, ht0⟩ := hg.1.2.2.2.2
  have ht0a : st1.downloadCalls = (st.downloadCalls ++ [imp]) ++ t0 := ht0
  cases o with
  | ok =>
    have hrest := (downloadImports_good env dl p u i hdl rest 1 stk1 st1
      (by rw [him]; simp; omega)).1.2.2.2.2
    obtain ⟨t1, ht1⟩ := hrest
    refine ⟨t0 ++ t1, ?_⟩
    show (downloadImports env dl p u i (0 + 1) rest stk1 st1).2.2.downloadCalls = _
    have h01 : (0 : Nat) + 1 = 1 := rfl
    rw [h01, ht1, ht0a]
    simp
  | err e =>
    refine ⟨t0, ?_⟩
    show st1.downloadCalls = _
    rw [ht0a]
    simp
  | panicked m =>
    refine ⟨t0, ?_⟩
    show st1.downloadCalls = _
    rw [ht0a]
    simp
  | fuelOut =>
    refine ⟨t0, ?_⟩
    show st1.downloadCalls = _
    rw [ht0a]
    simp

/-- Counterexample to claim C4 as stated: in envC4 the package b is
fetched successfully and re-resolved; the re-resolved package carries
only a soft (non-hard) error, yet download aborts, returns that soft
error, and never recurses into the declared import dep (the recursion
log stays empty). -/
theorem soft_error_reload_aborts_cex :
    (download envC4 5 "b" none [] false false false St.start).1 = .err softErr ∧
    softErr.hard = false ∧
    pkgB1.imports = ["dep"] ∧
    (download envC4 5 "b" none [] false false false St.start).2.2.downloadCalls = [] := by
  refine ⟨by decide, by decide, by decide, by decide⟩

/-- Claim C4 as amended: a soft error on the initially loaded package
does not stop the walk (download still recurses into the imports of the
package), but when the package is re-resolved after a successful fetch,
any error on the re-resolved package, soft or hard alike, aborts
download and propagates; softness is tolerated only at the initial
load. -/
theorem soft_error_walk_amended :
    (∀ (env : Env) (fuel : Nat) (path : String) (par : Option Package)
      (stk : List String) (insec : Bool) (st : St) (e : PackageError)
      (imp : String) (rest : List String),
      (load1 env st par path false).error = some e →
      e.hard = false →
      (load1 env st par path false).standard = false →
      (load1 env st par path false).importPath ∉ st.downloadCache →
      (load1 env st par path false).dir ≠ "" →
      (load1 env st par path false).imports = imp :: rest →
      imp ≠ "C" →
      env.findVendor (match (load1 env st par path false).buildImports[0]? with
        | some o => o
        | none => imp) = none →
      ∃ t, (download env (fuel + 1) path par stk false insec false st).2.2.downloadCalls
          = st.downloadCalls ++ imp :: t) ∧
    (∀ (env : Env) (fuel : Nat) (path : String) (par : Option Package)
      (stk : List String) (u insec : Bool) (st st2 : St) (e : PackageError),
      errIsHard (load1 env st par path false).error = false →
      (load1 env st par path false).standard = false →
      (load1 env st par path false).importPath ∉ st.downloadCache →
      ((load1 env st par path false).dir = "" || u) = true →
      downloadPackage env
        { st with downloadCache :=
            (load1 env st par path false).importPath :: st.downloadCache }
        (load1 env st par path false) u insec = (.ok, st2) →
      (load1 env st2 par (load1 env st par path false).importPath false).error = some e →
      download env (fuel + 1) path par stk u insec false st = (.err e, stk, st2)) := by
  constructor
  · intro env fuel path par stk insec st e imp rest he hh hs hc hd him hC hfv
    rw [download_succ, downloadStep_not_hard env _ path par stk false insec false st
      (by rw [he]; simpa [errIsHard] using hh)]
    unfold downloadBody
    dsimp only
    rw [if_neg (by simp [hs]), if_neg hc, if_neg Bool.false_ne_true,
      if_neg (by simp [hd])]
    have hdl : ∀ path par stk st,
        GoodStep stk st (download env fuel path par stk false insec false st) :=
      fun path par stk st => download_good env fuel path par stk false insec false st
    cases hv : env.vcsFromDir (load1 env st par path false).dir
        (load1 env st par path false).srcRoot with
    | ok root =>
      rw [downloadFinish, if_neg Bool.false_ne_true, downloadPkgs_one_calls, him]
      obtain ⟨t, ht⟩ := downloadImports_first_call env _ (load1 env st par path false)
        false insec stk _ imp rest hdl hC hfv him
      exact ⟨t, by rw [ht]⟩
    | error ev =>
      rw [downloadFinish, if_neg Bool.false_ne_true, downloadPkgs_one_calls, him]
      obtain ⟨t, ht⟩ := downloadImports_first_call env _ (load1 env st par path false)
        false insec stk _ imp rest hdl hC hfv him
      exact ⟨t, by rw [ht]⟩
  · intro env fuel path par stk u insec st st2 e h1 h2 h3 h4 hdp he2
    rw [download_succ, downloadStep_not_hard env _ path par stk u insec false st h1]
    unfold downloadBody
    dsimp only
    rw [if_neg (by simp [h2]), if_neg h3, if_neg Bool.false_ne_true, if_pos h4, hdp]
    dsimp only
    rw [he2]
    dsimp only
    rw [List.dropLast_concat]

/-- Witness for the amended C4: package s loads with a soft error and
the walk still recurses into its import dep; package b is fetched, its
reload carries only the soft error softErr, and download aborts with
exactly that error and the post-fetch state. -/
theorem soft_error_walk_amended_witness :
    (∃ t, (download envC4a 5 "s" none [] false false false St.start).2.2.downloadCalls
        = St.start.downloadCalls ++ "dep" :: t) ∧
    download envC4 5 "b" none [] false false false St.start = (.err softErr, [], st2W) := by
  constructor
  · exact soft_error_walk_amended.1 envC4a 4 "s" none [] false St.start softErr "dep" []
      (by decide) (by decide) (by decide) (by decide) (by decide) (by decide) (by decide)
      (by decide)
  · exact soft_error_walk_amended.2 envC4 4 "b" none [] false false St.start st2W softErr
      (by decide) (by decide) (by decide) (by decide) (by decide) (by decide)

/-- Counterexample to claim C5 as stated: in the diamond graph of
c5cache the path a2 is reached through the two ancestors b and c, and
the hint pass invokes processPath on a2 twice, not once - the
computation is not memoized. -/
theorem hint_pass_recomputes_cex :
    hintCallsOf (processPath c5cache c5repos c5vcs 10 "root" ⟨[], []⟩)
      = some ["root", "b", "a2", "c", "a2"] ∧
    (["root", "b", "a2", "c", "a2"].count "a2" = 2) := by
  refine ⟨by decide, by decide⟩

/-- Claim C5 as amended: the hint computation of Get is not memoized.
A path reached through several ancestors is recomputed once per
ancestor (in the diamond graph, a2 is processed twice), and the hint
pass terminates only on acyclic package graphs: on the one-node cyclic
graph cyccache the recursion exhausts every finite budget. -/
theorem hint_pass_not_memoized_amended :
    (hintCallsOf (processPath c5cache c5repos c5vcs 10 "root" ⟨[], []⟩)
      = some ["root", "b", "a2", "c", "a2"] ∧
     (["root", "b", "a2", "c", "a2"].count "a2" = 2)) ∧
    (∀ (fuel : Nat) (st : HintSt),
      processPath cyccache [] c5vcs fuel "a" st = .error .fuelOut) := by
  refine ⟨⟨by decide, by decide⟩, ?_⟩
  intro fuel
  induction fuel with
  | zero => intro st; rfl
  | succ n ih =>
    intro st
    show processPathStep cyccache [] c5vcs (processPath cyccache [] c5vcs n) "a"
      st = .error .fuelOut
    unfold processPathStep
    have hc : cyccache "a" = some (mkPkg "a" ["a"]) := by decide
    rw [hc]
    dsimp only
    rw [if_neg (by decide)]
    unfold hintImports
    dsimp only [mkPkg]
    rw [ih { st with calls := st.calls ++ ["a"] }]

/-- Claim C10 (the code as written): a path missing from packageCache
makes the hint pass fail with the nil-pointer dereference: the Standard
field of the nil map entry is read before any nil check. The package r
imports the cgo pseudo-path C, which the walker never loads, so the
pass over r panics; processing the missing path C directly panics as
well. -/
theorem hint_missing_package_nil_deref :
    c10cache "C" = none ∧
    (mkPkg "r" ["C"]).imports = ["C"] ∧
    processPath c10cache [] c5vcs 5 "r" ⟨[], []⟩ = .error .nilPanic ∧
    processPath c10cache [] c5vcs 5 "C" ⟨[], []⟩ = .error .nilPanic := by
  refine ⟨by decide, by decide, by rfl, by rfl⟩
